import Mathlib

/-!
Shallow embedding of the asciii storage engine (`src/storage/mod.rs`).

Paths are modelled as absolute component lists (the root is `[]`), the
filesystem as explicit lists of directory paths and of file paths with
their byte content.  Fallible Rust functions returning `Result` become
`Except StorageError`; functions that can additionally panic (via
`unwrap`/`assert!`) return `RRes`, whose `panic` constructor models a
process abort.  The `Storable` trait, `Repository` and the error enum
live in repository files outside `src/`; they are modelled as explicit
capability records (`StorableOps`, `Repo`) following the spec's record
capability contract.
-/

deriving instance DecidableEq for Except

namespace Asciii

/-- Error taxonomy of the storage engine.  The `StorageError` enum itself
is declared in `storage/error.rs` (not under `src/`); the constructor
names are the ones used throughout `storage/mod.rs`.  `IoError` stands
for any raw filesystem error propagated unwrapped. -/
inductive StorageError where
  | FaultyConfig (key : String)
  | StoragePathNotAbsolute
  | InvalidDirStructure
  | TemplateNotFound
  | ProjectDirExists
  | ProjectFileExists
  | ProjectDoesNotExist
  | NoWorkingDir
  | BadChoice
  | BadProjectFileName
  | GitProcessFailed
  | RepoUninitialized
  | NothingFound (terms : List String)
  | IoError
  deriving DecidableEq, Repr

/-- Result of a storage operation that may also abort the process:
`panic` models a Rust `unwrap`/`assert!` failure. -/
inductive RRes (α : Type) where
  | panic
  | err (e : StorageError)
  | ok (a : α)
  deriving DecidableEq, Repr

/-- Sequencing on panic-aware results. -/
def RRes.bind {α β : Type} (m : RRes α) (f : α → RRes β) : RRes β :=
  match m with
  | .panic => .panic
  | .err e => .err e
  | .ok a => f a

instance : Monad RRes where
  pure := RRes.ok
  bind := RRes.bind

/-- Lift a `Result` into the panic-aware result type. -/
def liftE {α : Type} : Except StorageError α → RRes α
  | .ok a => .ok a
  | .error e => .err e

/-- Extract a success value, `Err`/panic become `none` (used to state
that batch opening keeps exactly the successfully opened records). -/
def RRes.toOption {α : Type} : RRes α → Option α
  | .ok a => some a
  | _ => none

/-- Absolute filesystem paths as component lists; `[]` is the root. -/
abbrev FPath := List String

/-- All digits, non-empty, to a number (`str::parse` digit loop). -/
def digitsToNat? (cs : List Char) : Option Nat :=
  if cs.isEmpty then none
  else List.foldl
    (fun acc c => acc.bind (fun n => if c.isDigit then some (n * 10 + (c.toNat - 48)) else none))
    (some 0) cs

/-- Rust `str::parse::<usize>`: optional leading plus sign, then digits.
Overflow beyond the machine word is not modelled. -/
def parseUsize (s : String) : Option Nat :=
  match s.toList with
  | '+' :: rest => digitsToNat? rest
  | cs => digitsToNat? cs

/-- Rust `str::parse::<i32>`: optional sign, digits, 32-bit bounds. -/
def parseI32 (s : String) : Option Int :=
  match s.toList with
  | '-' :: rest => (digitsToNat? rest).bind
      (fun n => if n ≤ 2147483648 then some (-(n : Int)) else none)
  | '+' :: rest => (digitsToNat? rest).bind
      (fun n => if n ≤ 2147483647 then some ((n : Int)) else none)
  | cs => (digitsToNat? cs).bind
      (fun n => if n ≤ 2147483647 then some ((n : Int)) else none)

/-- Indices of the dots that separate a file name from its extension:
any `.` at a position other than the first (`Path::file_stem` ignores a
single leading dot). -/
def dotPositions (cs : List Char) : List Nat :=
  (List.range cs.length).filter (fun i => decide (i ≠ 0) && (cs.getD i ' ' == '.'))

/-- Split a file name into stem and extension (`Path::file_stem` /
`Path::extension` semantics: split at the last non-leading dot). -/
def fileStemExt (s : String) : String × Option String :=
  let cs := s.toList
  match (dotPositions cs).getLast? with
  | none => (s, none)
  | some i => (String.mk (cs.take i), some (String.mk (cs.drop (i + 1))))

namespace FPath

/-- Last component (`Path::file_name`). -/
def fileName (p : FPath) : Option String := p.getLast?

/-- Stem of the last component (`Path::file_stem`). -/
def fileStem (p : FPath) : Option String := p.getLast?.map (fun s => (fileStemExt s).1)

/-- Extension of the last component (`Path::extension`). -/
def extension (p : FPath) : Option String := p.getLast?.bind (fun s => (fileStemExt s).2)

/-- Parent directory (`Path::parent`); the root has no parent. -/
def parent (p : FPath) : Option FPath := if p.isEmpty then none else some p.dropLast

/-- Component-wise prefix test (`Path::starts_with`). -/
def startsWith (p base : FPath) : Bool := base.isPrefixOf p

end FPath

/-- True when the file name begins with a dot (`is_dot_file`). -/
def is_dot_file (p : FPath) : Bool :=
  (((p.getLast?).bind (fun s => s.toList.head?)).map (fun c => c == '.')).getD false

/-- The filesystem: directory paths and file paths with contents. -/
structure FS where
  dirs : List FPath
  files : List (FPath × String)
  deriving DecidableEq, Repr

namespace FS

/-- A directory exists at `p`. -/
def isDir (fs : FS) (p : FPath) : Bool := fs.dirs.contains p

/-- A file exists at `p`. -/
def isFile (fs : FS) (p : FPath) : Bool := fs.files.any (fun e => e.1 == p)

/-- Something exists at `p` (`Path::exists`). -/
def pathExists (fs : FS) (p : FPath) : Bool := fs.isDir p || fs.isFile p

/-- `q` is an immediate child of `parent`. -/
def isChildOf (parent q : FPath) : Bool :=
  (q.length == parent.length + 1) && parent.isPrefixOf q

/-- Immediate children of a directory, directories first, in the order
the filesystem lists happen to hold them (`fs::read_dir` order is
unspecified; the model fixes one). -/
def readDirList (fs : FS) (p : FPath) : List FPath :=
  fs.dirs.filter (isChildOf p) ++ (fs.files.map Prod.fst).filter (isChildOf p)

/-- `fs::read_dir`: fails unless `p` is an existing directory. -/
def readDir (fs : FS) (p : FPath) : Except StorageError (List FPath) :=
  if fs.isDir p then .ok (fs.readDirList p) else .error .IoError

/-- Move a path from the `src` subtree to the `dst` subtree. -/
def rebase (src dst q : FPath) : FPath :=
  if src.isPrefixOf q then dst ++ q.drop src.length else q

/-- `fs::rename`: requires the source to exist, the target to be free
and the target's parent directory to exist; moves the whole subtree. -/
def rename (fs : FS) (src dst : FPath) : Except StorageError FS :=
  if fs.pathExists src && !fs.pathExists dst && !dst.isEmpty && fs.isDir dst.dropLast then
    .ok ⟨fs.dirs.map (rebase src dst), fs.files.map (fun e => (rebase src dst e.1, e.2))⟩
  else .error .IoError

/-- `fs::create_dir`: requires a free target under an existing parent. -/
def createDir (fs : FS) (p : FPath) : Except StorageError FS :=
  if !fs.pathExists p && !p.isEmpty && fs.isDir p.dropLast then
    .ok ⟨fs.dirs ++ [p], fs.files⟩
  else .error .IoError

/-- Remove the whole subtree rooted at `p`. -/
def removeSubtree (fs : FS) (p : FPath) : FS :=
  ⟨fs.dirs.filter (fun q => !p.isPrefixOf q),
   fs.files.filter (fun e => !p.isPrefixOf e.1)⟩

/-- Well-formedness: the parent of every entry is a directory (true of
any state a real filesystem can be in). -/
def wf (fs : FS) : Bool :=
  (fs.dirs ++ fs.files.map Prod.fst).all (fun p => p.isEmpty || fs.dirs.contains p.dropLast)

end FS

/-- Status a repository reports for a path (`repo.rs` is not under
`src/`; the engine only stores the value on the record). -/
inductive GitStatus where
  | unknown
  | clean
  | modified
  deriving DecidableEq, Repr

/-- The version-control side channel, consumed as in spec section 4.6:
`add` returns the staging success flag, `get_status` a per-path status.
(`repo.rs` is not under `src/`; both operations are capability
parameters.) -/
structure Repo where
  add : List FPath → Bool
  get_status : FPath → GitStatus

/-- The `Storable` record capability (trait `storable.rs`, not under
`src/`), modelled from the spec's record capability contract in section
6: identity, optional prefix, year, sortable index, substring search,
directory location, archive readiness, git-status annotation and
confirmation-gated directory deletion.  `delete_project_dir_if` is
modelled from the spec: the confirmation predicate (already evaluated
to a `Bool`) gates the physical removal, which transforms the
filesystem or fails. -/
structure StorableOps (L : Type) where
  file_extension : String
  open_folder : FPath → Except StorageError L
  open_file : FPath → Except StorageError L
  dir : L → FPath
  ident : L → String
  prefix_ : L → Option String
  year : L → Option Int
  index : L → Option String
  matches_search : L → String → Bool
  is_ready_for_archive : L → Bool
  set_git_status : L → GitStatus → L
  delete_project_dir_if : L → Bool → FS → Except StorageError FS

/-- Which directory a query talks about (`StorageDir`). -/
inductive StorageDir where
  | Working
  | Archive (year : Int)
  | Year (year : Int)
  | Root
  | Templates
  | Extras
  | All
  deriving DecidableEq, Repr

/-- The storage engine: resolved directory layout, optional repository,
the `git_statuses` feature flag, and the record capability. -/
structure Storage (L : Type) where
  root : FPath
  working : FPath
  archive : FPath
  templates : FPath
  extras : FPath
  repository : Option Repo := none
  git_statuses : Bool := false
  ops : StorableOps L

/-- Lowercasing as `str::to_lowercase` (ASCII range; the claims use
only ASCII search terms). -/
def strToLower (s : String) : String := String.mk (s.toList.map Char.toLower)

/-- Byte-lexicographic (equivalently code-point-lexicographic) strict
order on strings, as Rust's `Ord for str`. -/
def charsLt : List Char → List Char → Bool
  | [], [] => false
  | [], _ :: _ => true
  | _ :: _, [] => false
  | c :: cs, d :: ds =>
    if c.toNat < d.toNat then true
    else if d.toNat < c.toNat then false
    else charsLt cs ds

/-- `a` sorts no later than `b` (total order used by `sort_by`). -/
def strLe (a b : String) : Bool := !(charsLt b.toList a.toList)

/-- Insert into an ascending list after all elements that compare no
greater (the stable insertion position). -/
def insertLe {α : Type} (le : α → α → Bool) (a : α) : List α → List α
  | [] => [a]
  | b :: bs => if le b a then b :: insertLe le a bs else a :: b :: bs

/-- Stable ascending sort, as `Vec::sort_by` (a stable sort's output is
determined by the comparator, so any stable algorithm is a faithful
model of the source's merge-based one). -/
def sortByLe {α : Type} (le : α → α → Bool) (l : List α) : List α :=
  List.foldl (fun acc a => insertLe le a acc) [] l

/-- `ls`: list a directory, dropping hidden entries
(`list_path_content`). -/
def list_path_content (fs : FS) (path : FPath) : Except StorageError (List FPath) :=
  (fs.readDir path).map (fun l => l.filter (fun p => !is_dot_file p))

namespace Storage

variable {L : Type}

/-- `create_archive`: `assert!(archive_dir.exists())`, then create
`archive/<year>` when the archive root exists and the partition does
not. -/
def create_archive (st : Storage L) (fs : FS) (year : Int) : RRes (FS × FPath) :=
  if !fs.pathExists st.archive then .panic
  else if fs.pathExists st.archive && !fs.pathExists (st.archive ++ [toString year]) then
    (liftE (fs.createDir (st.archive ++ [toString year]))).bind
      (fun fs1 => .ok (fs1, st.archive ++ [toString year]))
  else .ok (fs, st.archive ++ [toString year])

/-- `archive_project`: rename the project folder into
`archive/<year>/<name>` where the name is `prefix_ident` if the record
declares a prefix, else `ident`; returns `[old_path, new_path]`.  The
best-effort `repo.add` result is ignored here. -/
def archive_project (st : Storage L) (fs : FS) (project : L) (year : Int) :
    RRes (FS × List FPath) :=
  RRes.bind (st.create_archive fs year) (fun r =>
    RRes.bind
      (liftE (r.1.rename (st.ops.dir project)
        (r.2 ++ [match st.ops.prefix_ project with
                 | some p => p ++ "_" ++ st.ops.ident project
                 | none => st.ops.ident project])))
      (fun fs2 => .ok (fs2, [st.ops.dir project,
        r.2 ++ [match st.ops.prefix_ project with
                | some p => p ++ "_" ++ st.ops.ident project
                | none => st.ops.ident project]])))

/-- `open_project`: `path.metadata().unwrap()` panics when the path
does not exist; otherwise a directory is opened through the folder
routine and a file through the file routine, the error (if any) being
logged and returned. -/
def open_project (st : Storage L) (fs : FS) (path : FPath) : RRes L :=
  if !fs.pathExists path then .panic
  else if fs.isDir path then liftE (st.ops.open_folder path)
  else liftE (st.ops.open_file path)

/-- The `filter_map(open_project(..).ok())` pass of `open_paths`: a
panic aborts the batch, an `Err` is dropped, successes are kept in
order. -/
def open_paths_raw (st : Storage L) (fs : FS) : List FPath → RRes (List L)
  | [] => .ok []
  | p :: ps =>
    match st.open_project fs p with
    | .panic => .panic
    | .err _ => st.open_paths_raw fs ps
    | .ok l => (st.open_paths_raw fs ps).bind (fun rest => .ok (l :: rest))

/-- `open_paths`: batch-open, then (when the `git_statuses` feature is
on and a repository is attached) annotate every record with its status
without reordering or dropping. -/
def open_paths (st : Storage L) (fs : FS) (paths : List FPath) : RRes (List L) :=
  RRes.bind (st.open_paths_raw fs paths) (fun projects =>
    if st.git_statuses then
      match st.repository with
      | some repo =>
        .ok (projects.map
          (fun project => st.ops.set_git_status project (repo.get_status (st.ops.dir project))))
      | none => .ok projects
    else .ok projects)

/-- `list_archives`: content of the archive root. -/
def list_archives (st : Storage L) (fs : FS) : Except StorageError (List FPath) :=
  list_path_content fs st.archive

/-- `list_years`: stems of the archive root's entries that parse as
years, sorted. -/
def list_years (st : Storage L) (fs : FS) : Except StorageError (List Int) :=
  (st.list_archives fs).map
    (fun archives =>
      sortByLe (fun a b => decide (a ≤ b))
        ((archives.filterMap FPath.fileStem).filterMap parseI32))

/-- Fold of `list_path_content` over the year partitions (the `All`
branch of `list_project_folders`). -/
def all_years_content (st : Storage L) (fs : FS) : List Int → Except StorageError (List FPath)
  | [] => .ok []
  | year :: rest =>
    (list_path_content fs (st.archive ++ [toString year])).bind (fun l =>
      (st.all_years_content fs rest).bind (fun r => .ok (l ++ r)))

/-- `list_project_folders`: children of the requested storage
directory; a missing year partition is absorbed into an empty list via
`unwrap_or_else`, every other listing error propagates. -/
def list_project_folders (st : Storage L) (fs : FS) (directory : StorageDir) :
    Except StorageError (List FPath) :=
  match directory with
  | .Working => list_path_content fs st.working
  | .Archive year =>
    .ok ((list_path_content fs (st.archive ++ [toString year])).toOption.getD [])
  | .All =>
    (st.list_years fs).bind (fun years =>
      (st.all_years_content fs years).bind (fun archived =>
        (list_path_content fs st.working).bind (fun w => .ok (archived ++ w))))
  | _ => .error .BadChoice

/-- `get_project_file`: first entry of the folder whose extension is
the record type's declared extension. -/
def get_project_file (st : Storage L) (fs : FS) (directory : FPath) :
    Except StorageError FPath :=
  (list_path_content fs directory).bind (fun content =>
    match content.find? (fun f => (FPath.extension f).getD "" == st.ops.file_extension) with
    | some f => .ok f
    | none => .error .ProjectDoesNotExist)

/-- `get_project_name`: stem of the project file. -/
def get_project_name (st : Storage L) (fs : FS) (directory : FPath) :
    Except StorageError String :=
  (st.get_project_file fs directory).bind (fun path =>
    match FPath.fileStem path with
    | some stem => .ok stem
    | none => .error .BadProjectFileName)

/-- `unarchive_project_dir`: move an archived project directory back to
`working/<stem of its project file>`.  The occupied-target check runs
before the structural check, exactly as in the source. -/
def parent_is_num (archived_dir : FPath) : Bool :=
  match FPath.parent archived_dir with
  | some par =>
    match FPath.fileStem par with
    | some s => (parseI32 s).isSome
    | none => false
  | none => false

def unarchive_project_dir (st : Storage L) (fs : FS) (archived_dir : FPath) :
    Except StorageError (FS × FPath) :=
  (st.get_project_name fs archived_dir).bind (fun name =>
    if fs.pathExists (st.working ++ [name]) then .error .ProjectFileExists
    else if FPath.startsWith archived_dir st.archive && !(archived_dir == st.archive)
        && parent_is_num archived_dir then
      (fs.rename archived_dir (st.working ++ [name])).bind
        (fun fs1 => .ok (fs1, st.working ++ [name]))
    else .error .InvalidDirStructure)

/-- `list_project_folders` followed by `open_paths` (the non-recursive
arm of `open_projects_dir`). -/
def open_projects_flat (st : Storage L) (fs : FS) (directory : StorageDir) : RRes (List L) :=
  RRes.bind (liftE (st.list_project_folders fs directory))
    (fun folders => st.open_paths fs folders)

/-- `open_projects_dir`.  The `Year` arm opens `Archive(year)` and
`Working` (both resolve through the flat arm) and keeps only records of
that year; the year filter `filter_by_key_val("Year", ..)` lives in
`project_list.rs`, which is not under `src/`, and is modelled from the
spec: keep exactly the records whose declared year equals the requested
one. -/
def open_projects_dir (st : Storage L) (fs : FS) (directory : StorageDir) : RRes (List L) :=
  match directory with
  | .Year year =>
    RRes.bind (st.open_projects_flat fs (.Archive year)) (fun archived =>
      RRes.bind (st.open_projects_flat fs .Working) (fun working =>
        .ok ((archived ++ working).filter (fun p => st.ops.year p == some year))))
  | d => st.open_projects_flat fs d

/-- The comparator of `search_projects`: order by sortable index,
records without an index receiving the sentinel `zzzz`. -/
def index_le (st : Storage L) (pa pb : L) : Bool :=
  strLe ((st.ops.index pa).getD "zzzz") ((st.ops.index pb).getD "zzzz")

/-- `search_projects`: open every record of the directory, sort by
index, then keep a record when the term is `N<digits>` naming its
1-based position in the sorted list, or when the record's
case-insensitive representation matches the lowercased term (the two
filters are OR-ed). -/
def search_index_of (search_term : String) : Option Nat :=
  if (search_term.toList.head?.map (fun c => c == 'N')).getD false then
    parseUsize (search_term.drop 1)
  else none

def search_projects (st : Storage L) (fs : FS) (directory : StorageDir)
    (search_term : String) : RRes (List L) :=
  RRes.bind (st.open_projects_dir fs directory) (fun projects =>
    .ok (((sortByLe st.index_le projects).enum.filter
      (fun e =>
        (match search_index_of search_term with
          | some idx => idx == e.1 + 1
          | none => false)
        || st.ops.matches_search e.2 (strToLower search_term))).map Prod.snd))

/-- The `for` loop of `search_projects_any`: per-term results appended
in term order, any per-term failure propagating. -/
def search_any_go (st : Storage L) (fs : FS) (dir : StorageDir) :
    List String → List L → RRes (List L)
  | [], acc => .ok acc
  | t :: ts, acc =>
    (st.search_projects fs dir t).bind (fun found => st.search_any_go fs dir ts (acc ++ found))

/-- `search_projects_any`: union of the per-term searches, preserving
per-term order, without deduplication. -/
def search_projects_any (st : Storage L) (fs : FS) (dir : StorageDir)
    (search_terms : List String) : RRes (List L) :=
  st.search_any_go fs dir search_terms []

/-- The `for` loop of `archive_projects_if`.  A record that is ready
(or forced) is archived into the explicit year if given, else its own
year; `.unwrap()` on a missing year panics.  The archival log line
evaluates `project.year().unwrap()` when info-level logging is enabled
(`logInfo`), panicking even when an explicit year was supplied.  A
record that is neither ready nor forced is skipped with a warning. -/
def archive_loop (st : Storage L) (logInfo : Bool) (manual_year : Option Int)
    (force : Bool) : List L → FS → List FPath → RRes (FS × List FPath)
  | [], fs, moved => .ok (fs, moved)
  | project :: rest, fs, moved =>
    if st.ops.is_ready_for_archive project || force then
      match manual_year.orElse (fun _ => st.ops.year project) with
      | none => .panic
      | some year =>
        if logInfo && (st.ops.year project).isNone then .panic
        else
          (st.archive_project fs project year).bind
            (fun r =>
              st.archive_loop logInfo manual_year force rest r.1
                (moved ++ [st.ops.dir project] ++ r.2))
    else st.archive_loop logInfo manual_year force rest fs moved

/-- `archive_projects_if`: search the working directory with OR-union
semantics, fail with `ProjectDoesNotExist` when nothing matched,
evaluate the confirmation once into a `force` flag, then run the
archive loop.  The final best-effort `repo.add` result is ignored. -/
def archive_projects_if (st : Storage L) (fs : FS) (logInfo : Bool)
    (search_terms : List String) (manual_year : Option Int) (confirm : Bool) :
    RRes (FS × List FPath) :=
  RRes.bind (st.search_projects_any fs .Working search_terms) (fun projects =>
    if projects.isEmpty then .err .ProjectDoesNotExist
    else st.archive_loop logInfo manual_year confirm projects fs [])

/-- `delete_project_if`: the capability performs the confirmation-gated
removal; afterwards, if a repository is attached and staging the
removed path reports failure, the operation fails with
`GitProcessFailed` — the filesystem removal is not rolled back, so the
mutated filesystem is returned alongside the error. -/
def delete_project_if (st : Storage L) (fs : FS) (project : L) (confirmed : Bool) :
    FS × RRes Unit :=
  match st.ops.delete_project_dir_if project confirmed fs with
  | .error e => (fs, .err e)
  | .ok fs1 =>
    match st.repository with
    | some repo =>
      if !(repo.add [st.ops.dir project]) then (fs1, .err .GitProcessFailed)
      else (fs1, .ok ())
    | none => (fs1, .ok ())

end Storage

/-- A concrete record type used to instantiate the record capability in
the closed witnesses and counterexamples. -/
structure TRec where
  name : String
  pfx : Option String := none
  yr : Option Int := none
  idx : Option String := none
  hits : List String := []
  home : FPath := []
  ready : Bool := false
  deriving DecidableEq, Repr

/-- Record capability over `TRec`: `open_folder` looks the path up in a
fixed table, textual search matches against a fixed list of lowercased
terms, and the confirmation-gated removal deletes the record's subtree
when confirmed. -/
def tOps (table : List (FPath × TRec)) : StorableOps TRec where
  file_extension := "yml"
  open_folder := fun p =>
    match table.find? (fun e => e.1 == p) with
    | some e => .ok e.2
    | none => .error .ProjectDoesNotExist
  open_file := fun _ => .error .ProjectDoesNotExist
  dir := fun r => r.home
  ident := fun r => r.name
  prefix_ := fun r => r.pfx
  year := fun r => r.yr
  index := fun r => r.idx
  matches_search := fun r t => r.hits.contains t
  is_ready_for_archive := fun r => r.ready
  set_git_status := fun r _ => r
  delete_project_dir_if := fun r c fs =>
    if c then .ok (fs.removeSubtree r.home) else .error .IoError

end Asciii


namespace Asciii

section Lemmas

variable {L : Type}

lemma rres_bind_ok {α β : Type} (a : α) (f : α → RRes β) : RRes.bind (.ok a) f = f a := rfl

lemma rres_bind_err {α β : Type} (e : StorageError) (f : α → RRes β) :
    RRes.bind (.err e) f = .err e := rfl

lemma rres_bind_panic {α β : Type} (f : α → RRes β) : RRes.bind .panic f = .panic := rfl

lemma rres_pure {α : Type} (a : α) : (pure a : RRes α) = .ok a := rfl

lemma rres_monad_bind {α β : Type} (m : RRes α) (f : α → RRes β) : m >>= f = RRes.bind m f := rfl

lemma liftE_ok {α : Type} (a : α) : liftE (.ok a) = .ok a := rfl

lemma liftE_error {α : Type} (e : StorageError) : liftE (Except.error e : Except StorageError α) = .err e := rfl

end Lemmas

section ClaimC10

variable {L : Type}

/-- Claim C10: a missing year partition is absorbed: listing
`Archive(y)` when `archive/<y>` is not a directory yields `Ok []`,
while listing `Working` when the working directory is missing
propagates the raw filesystem error. -/
theorem C10_missing_year_partition_absorbed (st : Storage L) (fs : FS) (y : Int) :
    (fs.isDir (st.archive ++ [toString y]) = false →
      st.list_project_folders fs (.Archive y) = .ok [])
    ∧ (fs.isDir st.working = false →
      st.list_project_folders fs .Working = .error .IoError) := by
  constructor
  · intro h
    simp [Storage.list_project_folders, list_path_content, FS.readDir, h, Except.map,
      Except.toOption]
  · intro h
    simp [Storage.list_project_folders, list_path_content, FS.readDir, h, Except.map]

/-- Storage used by the C10 witness: no year partitions exist, and the
second component's working directory points at a missing path. -/
def stC10 : Storage TRec :=
  { root := [], working := ["working"], archive := ["archive"], templates := ["t"],
    extras := ["e"], ops := tOps [] }

def stC10bad : Storage TRec :=
  { root := [], working := ["missing"], archive := ["archive"], templates := ["t"],
    extras := ["e"], ops := tOps [] }

def fsC10 : FS := { dirs := [[], ["working"], ["archive"]], files := [] }

/-- Witness for C10 at a concrete filesystem without an `archive/2024`
partition and with a storage whose working directory is absent. -/
theorem C10_missing_year_partition_absorbed_witness :
    Storage.list_project_folders stC10 fsC10 (.Archive 2024) = .ok []
    ∧ Storage.list_project_folders stC10bad fsC10 .Working = .error .IoError := by
  constructor
  · exact (C10_missing_year_partition_absorbed stC10 fsC10 2024).1 (by decide)
  · exact (C10_missing_year_partition_absorbed stC10bad fsC10 2024).2 (by decide)

end ClaimC10

section ClaimC6

variable {L : Type}

/-- Claim C6: once the confirmed removal has happened (the capability
returned the mutated filesystem), an attached repository whose staging
of the removed path reports failure makes `delete_project_if` fail with
`GitProcessFailed` — the removal is kept, not rolled back; with no
repository attached the same successful removal yields `Ok`. -/
theorem C6_delete_staging_failure_fatal (st : Storage L) (fs fs1 : FS) (project : L)
    (confirmed : Bool)
    (hdel : st.ops.delete_project_dir_if project confirmed fs = .ok fs1) :
    (∀ repo, st.repository = some repo → repo.add [st.ops.dir project] = false →
      st.delete_project_if fs project confirmed = (fs1, .err .GitProcessFailed))
    ∧ (st.repository = none →
      st.delete_project_if fs project confirmed = (fs1, .ok ())) := by
  constructor
  · intro repo hrepo hadd
    simp [Storage.delete_project_if, hdel, hrepo, hadd]
  · intro hrepo
    simp [Storage.delete_project_if, hdel, hrepo]

/-- Repository whose staging always reports failure. -/
def repoC6 : Repo := { add := fun _ => false, get_status := fun _ => .unknown }

def recC6 : TRec := { name := "doomed", home := ["working", "doomed"] }

def stC6repo : Storage TRec :=
  { root := [], working := ["working"], archive := ["archive"], templates := ["t"],
    extras := ["e"], repository := some repoC6, ops := tOps [] }

def stC6norepo : Storage TRec :=
  { root := [], working := ["working"], archive := ["archive"], templates := ["t"],
    extras := ["e"], ops := tOps [] }

def fsC6 : FS :=
  { dirs := [[], ["working"], ["working", "doomed"]],
    files := [(["working", "doomed", "doomed.yml"], "d")] }

/-- Witness for C6: the confirmed removal succeeds concretely; with the
always-failing repository attached the result is `GitProcessFailed`
beside the already-deleted state, and without a repository it is `Ok`. -/
theorem C6_delete_staging_failure_fatal_witness :
    Storage.delete_project_if stC6repo fsC6 recC6 true
      = (FS.removeSubtree fsC6 ["working", "doomed"], .err .GitProcessFailed)
    ∧ Storage.delete_project_if stC6norepo fsC6 recC6 true
      = (FS.removeSubtree fsC6 ["working", "doomed"], .ok ()) := by
  constructor
  · exact (C6_delete_staging_failure_fatal stC6repo fsC6 _ recC6 true (by decide)).1
      repoC6 rfl (by decide)
  · exact (C6_delete_staging_failure_fatal stC6norepo fsC6 _ recC6 true (by decide)).2 rfl

end ClaimC6

section ClaimC5

variable {L : Type}

lemma search_any_go_ok (st : Storage L) (fs : FS) (dir : StorageDir) (f : String → List L) :
    ∀ (terms : List String) (acc : List L),
      (∀ t ∈ terms, st.search_projects fs dir t = .ok (f t)) →
      st.search_any_go fs dir terms acc = .ok (acc ++ terms.flatMap f) := by
  intro terms
  induction terms with
  | nil => intro acc _; simp [Storage.search_any_go]
  | cons t ts ih =>
    intro acc h
    have ht := h t (by simp)
    rw [Storage.search_any_go, ht, rres_bind_ok, ih (acc ++ f t) (fun u hu => h u (by simp [hu]))]
    simp

/-- Claim C5: `search_projects_any` is the concatenation of the
per-term `search_projects` results in term order, preserving each
term's internal order, with no deduplication: a record occurs in the
output once per per-term result containing it. -/
theorem C5_search_any_is_flat_concatenation (st : Storage L) (fs : FS) (dir : StorageDir)
    (terms : List String) (f : String → List L)
    (hf : ∀ t ∈ terms, st.search_projects fs dir t = .ok (f t)) :
    st.search_projects_any fs dir terms = .ok (terms.flatMap f) := by
  have h := search_any_go_ok st fs dir f terms [] hf
  simpa [Storage.search_projects_any] using h

def recC5a : TRec :=
  { name := "alice-party", idx := some "R001", home := ["w", "alice-party"], hits := ["alice"] }

def recC5b : TRec :=
  { name := "bob-event", idx := some "R002", home := ["w", "bob-event"], hits := ["bob"] }

def recC5n : TRec :=
  { name := "nobody", idx := some "R003", home := ["w", "nobody"], hits := [] }

def stC5 : Storage TRec :=
  { root := [], working := ["w"], archive := ["ar"], templates := ["t"], extras := ["e"],
    ops := tOps [(["w", "alice-party"], recC5a), (["w", "bob-event"], recC5b),
                 (["w", "nobody"], recC5n)] }

def fsC5 : FS :=
  { dirs := [[], ["w"], ["ar"], ["w", "alice-party"], ["w", "bob-event"], ["w", "nobody"]],
    files := [(["w", "alice-party", "alice-party.yml"], "a"),
              (["w", "bob-event", "bob-event.yml"], "b"),
              (["w", "nobody", "nobody.yml"], "n")] }

/-- Per-term result table for the C5 witness. -/
def fC5 : String → List TRec := fun t => if t == "alice" then [recC5a] else [recC5b]

/-- Witness for C5: searching `["alice", "bob"]` over a working set
with one record matching each term and a third matching neither returns
exactly both matching records, in term order. -/
theorem C5_search_any_is_flat_concatenation_witness :
    Storage.search_projects_any stC5 fsC5 .Working ["alice", "bob"] = .ok [recC5a, recC5b] := by
  have h := C5_search_any_is_flat_concatenation stC5 fsC5 .Working ["alice", "bob"] fC5
    (by decide)
  rw [h]
  decide

end ClaimC5

section ArchiveLemmas

variable {L : Type}

lemma createDir_ok (fs : FS) (p : FPath) (fs1 : FS) (h : fs.createDir p = .ok fs1) :
    fs1.dirs = fs.dirs ++ [p] ∧ fs1.files = fs.files ∧ fs.pathExists p = false ∧
    p ≠ [] ∧ fs.isDir p.dropLast = true := by
  unfold FS.createDir at h
  split at h
  next hc =>
    injection h with h1
    subst h1
    simp only [Bool.and_eq_true, Bool.not_eq_true'] at hc
    have hne : p ≠ [] := by
      intro hnil
      rw [hnil] at hc
      simp at hc
    exact ⟨rfl, rfl, by tauto, hne, by tauto⟩
  next => cases h

lemma rename_ok (fs : FS) (src dst : FPath) (fs1 : FS) (h : fs.rename src dst = .ok fs1) :
    fs.pathExists src = true ∧ fs.pathExists dst = false ∧ dst ≠ [] ∧
    fs.isDir dst.dropLast = true ∧
    fs1.dirs = fs.dirs.map (FS.rebase src dst) ∧
    fs1.files = fs.files.map (fun e => (FS.rebase src dst e.1, e.2)) := by
  unfold FS.rename at h
  split at h
  next hc =>
    injection h with h1
    subst h1
    simp only [Bool.and_eq_true, Bool.not_eq_true'] at hc
    have hne : dst ≠ [] := by
      intro hnil
      rw [hnil] at hc
      simp at hc
    exact ⟨by tauto, by tauto, hne, by tauto, rfl, rfl⟩
  next => cases h

lemma create_archive_ok (st : Storage L) (fs : FS) (y : Int) (fs1 : FS) (ar : FPath)
    (h : st.create_archive fs y = .ok (fs1, ar)) :
    ar = st.archive ++ [toString y] ∧
    (fs1 = fs ∨ fs.createDir (st.archive ++ [toString y]) = .ok fs1) := by
  unfold Storage.create_archive at h
  split at h
  · cases h
  · split at h
    · cases hcd : fs.createDir (st.archive ++ [toString y]) with
      | error e => rw [hcd, liftE_error, rres_bind_err] at h; cases h
      | ok fsx =>
        rw [hcd, liftE_ok, rres_bind_ok] at h
        injection h with h1
        injection h1 with h2 h3
        exact ⟨h3.symm, Or.inr (by rw [h2])⟩
    · injection h with h1
      injection h1 with h2 h3
      exact ⟨h3.symm, Or.inl h2.symm⟩

/-- Success shape of `archive_project`: the year partition path, the
rename that was performed, and the returned `[old_path, new_path]`. -/
lemma archive_project_ok (st : Storage L) (fs : FS) (project : L) (year : Int)
    (fs2 : FS) (moved : List FPath)
    (h : st.archive_project fs project year = .ok (fs2, moved)) :
    ∃ fsA,
      st.create_archive fs year = .ok (fsA, st.archive ++ [toString year]) ∧
      fsA.rename (st.ops.dir project)
        (st.archive ++ [toString year,
          match st.ops.prefix_ project with
          | some p => p ++ "_" ++ st.ops.ident project
          | none => st.ops.ident project]) = .ok fs2 ∧
      moved = [st.ops.dir project,
        st.archive ++ [toString year,
          match st.ops.prefix_ project with
          | some p => p ++ "_" ++ st.ops.ident project
          | none => st.ops.ident project]] := by
  unfold Storage.archive_project at h
  cases hca : st.create_archive fs year with
  | panic => rw [hca, rres_bind_panic] at h; cases h
  | err e => rw [hca, rres_bind_err] at h; cases h
  | ok pr =>
    obtain ⟨fsA, ar⟩ := pr
    obtain ⟨har, -⟩ := create_archive_ok st fs year fsA ar hca
    subst har
    rw [hca, rres_bind_ok] at h
    cases hrn : fsA.rename (st.ops.dir project)
        ((st.archive ++ [toString year]) ++
          [match st.ops.prefix_ project with
           | some p => p ++ "_" ++ st.ops.ident project
           | none => st.ops.ident project]) with
    | error e =>
      rw [show ((fsA, st.archive ++ [toString year]).1 : FS) = fsA from rfl] at h
      rw [show ((fsA, st.archive ++ [toString year]).2 : FPath)
            = st.archive ++ [toString year] from rfl] at h
      rw [hrn, liftE_error, rres_bind_err] at h
      cases h
    | ok fsB =>
      rw [show ((fsA, st.archive ++ [toString year]).1 : FS) = fsA from rfl] at h
      rw [show ((fsA, st.archive ++ [toString year]).2 : FPath)
            = st.archive ++ [toString year] from rfl] at h
      rw [hrn, liftE_ok, rres_bind_ok] at h
      injection h with h1
      injection h1 with h2 h3
      subst h2
      refine ⟨fsA, rfl, ?_, ?_⟩
      · rw [← hrn]
        simp [List.append_assoc]
      · rw [← h3]
        simp [List.append_assoc]

lemma rebase_self (src dst : FPath) : FS.rebase src dst src = dst := by
  unfold FS.rebase
  rw [if_pos (List.isPrefixOf_iff_prefix.mpr (List.prefix_refl _))]
  simp

lemma mem_dirs_create_archive (st : Storage L) (fs fsA : FS) (y : Int) (ar q : FPath)
    (hca : st.create_archive fs y = .ok (fsA, ar)) (hq : q ∈ fs.dirs) : q ∈ fsA.dirs := by
  rcases (create_archive_ok st fs y fsA ar hca).2 with he | hcd
  · rw [he]; exact hq
  · rw [(createDir_ok fs _ fsA hcd).1]
    exact List.mem_append_left _ hq

end ArchiveLemmas

section ClaimC3

variable {L : Type}

/-- Claim C3: a successful `archive_project` renames the record's
directory to `archive/<year>/<prefix>_<ident>` when the record declares
a prefix and `archive/<year>/<ident>` otherwise, the target directory
being present afterwards, and returns exactly `[old_path, new_path]`. -/
theorem C3_archive_naming_and_return (st : Storage L) (fs : FS) (project : L) (year : Int)
    (fs2 : FS) (moved : List FPath)
    (h : st.archive_project fs project year = .ok (fs2, moved))
    (hdir : st.ops.dir project ∈ fs.dirs) :
    moved = [st.ops.dir project,
      st.archive ++ [toString year,
        match st.ops.prefix_ project with
        | some p => p ++ "_" ++ st.ops.ident project
        | none => st.ops.ident project]]
    ∧ (st.archive ++ [toString year,
        match st.ops.prefix_ project with
        | some p => p ++ "_" ++ st.ops.ident project
        | none => st.ops.ident project]) ∈ fs2.dirs := by
  obtain ⟨fsA, hca, hrn, hmv⟩ := archive_project_ok st fs project year fs2 moved h
  refine ⟨hmv, ?_⟩
  have hmem : st.ops.dir project ∈ fsA.dirs :=
    mem_dirs_create_archive st fs fsA year _ (st.ops.dir project) hca hdir
  have hd2 := (rename_ok fsA _ _ fs2 hrn).2.2.2.2.1
  rw [hd2]
  exact List.mem_map.mpr ⟨st.ops.dir project, hmem, rebase_self _ _⟩

/-- The record of the spec's archive-naming example: prefix `R007`,
identity `birthday-party`. -/
def recC3 : TRec :=
  { name := "birthday-party", pfx := some "R007", home := ["working", "birthday-party"] }

def stC3 : Storage TRec :=
  { root := [], working := ["working"], archive := ["archive"], templates := ["t"],
    extras := ["e"], ops := tOps [(["working", "birthday-party"], recC3)] }

def fsC3 : FS :=
  { dirs := [[], ["working"], ["archive"], ["working", "birthday-party"]],
    files := [(["working", "birthday-party", "birthday-party.yml"], "b")] }

/-- The filesystem after the C3 witness archival. -/
def fsC3arch : FS :=
  { dirs := [[], ["working"], ["archive"],
             ["archive", "2024", "R007_birthday-party"], ["archive", "2024"]],
    files := [(["archive", "2024", "R007_birthday-party", "birthday-party.yml"], "b")] }

/-- Witness for C3: archiving the `R007`/`birthday-party` record into
2024 moves it to `archive/2024/R007_birthday-party` and returns the two
paths. -/
theorem C3_archive_naming_and_return_witness :
    Storage.archive_project stC3 fsC3 recC3 2024
      = .ok (fsC3arch,
          [["working", "birthday-party"], ["archive", "2024", "R007_birthday-party"]])
    ∧ ["archive", "2024", "R007_birthday-party"] ∈ fsC3arch.dirs := by
  constructor
  · decide
  · exact (C3_archive_naming_and_return stC3 fsC3 recC3 2024 fsC3arch
      [["working", "birthday-party"], ["archive", "2024", "R007_birthday-party"]]
      (by decide) (by decide)).2

end ClaimC3

section ClaimC7

variable {L : Type}

lemma liftE_ne_panic {α : Type} (x : Except StorageError α) : liftE x ≠ .panic := by
  cases x <;> simp [liftE]

lemma open_project_ne_panic (st : Storage L) (fs : FS) (p : FPath)
    (hp : fs.pathExists p = true) : st.open_project fs p ≠ .panic := by
  unfold Storage.open_project
  rw [hp]
  simp only [Bool.not_true, Bool.false_eq_true, if_false]
  split
  · exact liftE_ne_panic _
  · exact liftE_ne_panic _

lemma open_paths_raw_ok (st : Storage L) (fs : FS) :
    ∀ paths : List FPath, (∀ p ∈ paths, fs.pathExists p = true) →
      st.open_paths_raw fs paths
        = .ok (paths.filterMap (fun p => (st.open_project fs p).toOption)) := by
  intro paths
  induction paths with
  | nil => intro _; simp [Storage.open_paths_raw]
  | cons p ps ih =>
    intro h
    have hp := h p (by simp)
    have hrest := ih (fun q hq => h q (by simp [hq]))
    rw [Storage.open_paths_raw]
    cases hopn : st.open_project fs p with
    | panic => exact absurd hopn (open_project_ne_panic st fs p hp)
    | err e =>
      simp only [List.filterMap_cons, hopn, RRes.toOption]
      exact hrest
    | ok l =>
      simp only [List.filterMap_cons, hopn, RRes.toOption]
      rw [hrest]
      rfl

/-- Claim C7 (amended): provided every path of the batch exists (so
`path.metadata().unwrap()` cannot panic) and no status-annotation pass
rewrites the records (no repository attached), `open_paths` returns
exactly the records of the paths that opened successfully, each failing
path being dropped without failing the batch. -/
theorem C7_open_paths_best_effort (st : Storage L) (fs : FS) (paths : List FPath)
    (hex : ∀ p ∈ paths, fs.pathExists p = true)
    (hrepo : st.repository = none) :
    st.open_paths fs paths
      = .ok (paths.filterMap (fun p => (st.open_project fs p).toOption)) := by
  unfold Storage.open_paths
  rw [open_paths_raw_ok st fs paths hex, rres_bind_ok, hrepo]
  cases st.git_statuses <;> simp

def stC7 : Storage TRec :=
  { root := [], working := ["working"], archive := ["archive"], templates := ["t"],
    extras := ["e"], ops := tOps [] }

def fsC7 : FS := { dirs := [[], ["working"], ["archive"]], files := [] }

/-- Counterexample to C7 as stated: a batch containing one nonexistent
path does not yield the empty success collection — the
`metadata().unwrap()` call panics and aborts the whole batch. -/
theorem C7_open_paths_best_effort_counterexample :
    Storage.open_paths stC7 fsC7 [["working", "ghost"]] = .panic
    ∧ Storage.open_paths stC7 fsC7 [["working", "ghost"]] ≠ .ok [] := by
  constructor
  · decide
  · decide

/-- Record whose folder fails to open (it is absent from the capability
table), used to exercise the drop-on-failure path of the C7 witness. -/
def recC7 : TRec := { name := "good", home := ["working", "good"] }

def stC7w : Storage TRec :=
  { root := [], working := ["working"], archive := ["archive"], templates := ["t"],
    extras := ["e"], ops := tOps [(["working", "good"], recC7)] }

def fsC7w : FS :=
  { dirs := [[], ["working"], ["archive"], ["working", "good"], ["working", "bad"]],
    files := [] }

/-- Witness for the amended C7: of two existing paths, the one whose
open fails is dropped and the one that opens is returned; the batch
succeeds. -/
theorem C7_open_paths_best_effort_witness :
    Storage.open_paths stC7w fsC7w [["working", "good"], ["working", "bad"]]
      = .ok [recC7] := by
  have h := C7_open_paths_best_effort stC7w fsC7w [["working", "good"], ["working", "bad"]]
    (by decide) rfl
  rw [h]
  decide

end ClaimC7

section ClaimC2

variable {L : Type}

/-- Claim C2 (amended): once the record-file stem `n` is derivable from
the archived path, `unarchive_project_dir` fails with
`ProjectFileExists` whenever `working/<n>` is already occupied — this
check runs before the structural one — and fails with
`InvalidDirStructure`, performing no rename, whenever the target is
free and the path is the archive root itself, or not a descendant of
the archive root, or its parent's name does not parse as a year. -/
theorem C2_unarchive_precondition_errors (st : Storage L) (fs : FS) (p : FPath) (n : String)
    (hname : st.get_project_name fs p = .ok n) :
    (fs.pathExists (st.working ++ [n]) = true →
      st.unarchive_project_dir fs p = .error .ProjectFileExists)
    ∧ (fs.pathExists (st.working ++ [n]) = false →
      (p = st.archive ∨ FPath.startsWith p st.archive = false ∨ Storage.parent_is_num p = false) →
      st.unarchive_project_dir fs p = .error .InvalidDirStructure) := by
  constructor
  · intro hocc
    unfold Storage.unarchive_project_dir
    rw [hname]
    simp only [Except.bind, hocc, if_true]
  · intro hfree hbad
    unfold Storage.unarchive_project_dir
    rw [hname]
    simp only [Except.bind, hfree, Bool.false_eq_true, if_false]
    have hguard : (FPath.startsWith p st.archive && !(p == st.archive) && Storage.parent_is_num p)
        = false := by
      rcases hbad with hb | hb | hb
      · subst hb
        simp
      · rw [hb]
        simp
      · rw [hb]
        simp
    rw [hguard]
    simp

def stC2 : Storage TRec :=
  { root := [], working := ["w"], archive := ["a"], templates := ["t"], extras := ["e"],
    ops := tOps [] }

/-- Filesystem for the C2 counterexample: a record file sits directly
in the archive root, and `working/foo` is already occupied. -/
def fsC2 : FS :=
  { dirs := [[], ["w"], ["a"], ["w", "foo"]],
    files := [(["a", "foo.yml"], "x"), (["w", "foo", "foo.yml"], "y")] }

/-- Filesystem for the C2 witness, identical except that the working
slot `working/foo` is free. -/
def fsC2free : FS :=
  { dirs := [[], ["w"], ["a"]],
    files := [(["a", "foo.yml"], "x")] }

/-- Counterexample to C2 as stated: unarchiving the archive root itself
while the derived working target is occupied fails with
`ProjectFileExists`, not with the `InvalidDirStructure` the claim
demands for a path equal to the archive root. -/
theorem C2_unarchive_precondition_errors_counterexample :
    Storage.unarchive_project_dir stC2 fsC2 ["a"] = .error .ProjectFileExists
    ∧ Storage.unarchive_project_dir stC2 fsC2 ["a"] ≠ .error .InvalidDirStructure := by
  constructor
  · decide
  · decide

/-- Witness for the amended C2, at both concrete error situations: the
occupied working slot wins even on the archive root, and with the slot
free the same archive-root path fails structurally. -/
theorem C2_unarchive_precondition_errors_witness :
    Storage.unarchive_project_dir stC2 fsC2 ["a"] = .error .ProjectFileExists
    ∧ Storage.unarchive_project_dir stC2 fsC2free ["a"] = .error .InvalidDirStructure := by
  constructor
  · exact (C2_unarchive_precondition_errors stC2 fsC2 ["a"] "foo" (by decide)).1 (by decide)
  · exact (C2_unarchive_precondition_errors stC2 fsC2free ["a"] "foo" (by decide)).2
      (by decide) (Or.inl rfl)

end ClaimC2

section ClaimC4

variable {L : Type} {α : Type}

lemma mem_insertLe (le : α → α → Bool) (a x : α) :
    ∀ l, x ∈ insertLe le a l ↔ x = a ∨ x ∈ l := by
  intro l
  induction l with
  | nil => simp [insertLe]
  | cons b bs ih =>
    simp only [insertLe]
    split
    · simp only [List.mem_cons, ih]
      tauto
    · simp [List.mem_cons]

lemma mem_sortByLe_go (le : α → α → Bool) (x : α) :
    ∀ (l acc : List α),
      (x ∈ List.foldl (fun acc a => insertLe le a acc) acc l ↔ x ∈ acc ∨ x ∈ l) := by
  intro l
  induction l with
  | nil => intro acc; simp
  | cons a as ih =>
    intro acc
    rw [List.foldl_cons, ih, mem_insertLe]
    simp only [List.mem_cons]
    tauto

lemma mem_sortByLe (le : α → α → Bool) (x : α) (l : List α) :
    x ∈ sortByLe le l ↔ x ∈ l := by
  unfold sortByLe
  rw [mem_sortByLe_go]
  simp

lemma snd_mem_enumFrom (e : Nat × α) :
    ∀ (l : List α) (n : Nat), e ∈ List.enumFrom n l → e.2 ∈ l := by
  intro l
  induction l with
  | nil => intro n h; simp [List.enumFrom] at h
  | cons a as ih =>
    intro n h
    simp only [List.enumFrom, List.mem_cons] at h
    rcases h with h | h
    · subst h; simp
    · exact List.mem_cons_of_mem _ (ih (n + 1) h)

lemma enumFrom_filter_pos (k : Nat) :
    ∀ (l : List α) (i0 : Nat),
      ((List.enumFrom i0 l).filter (fun e => k == e.1 + 1)).map Prod.snd
        = if i0 + 1 ≤ k then (l.drop (k - 1 - i0)).take 1 else [] := by
  intro l
  induction l with
  | nil =>
    intro i0
    simp only [List.enumFrom, List.filter_nil, List.map_nil, List.drop_nil, List.take_nil]
    split <;> rfl
  | cons a l2 ih =>
    intro i0
    simp only [List.enumFrom, List.filter_cons]
    by_cases hk : k = i0 + 1
    · subst hk
      have h1 : ((i0 + 1 : Nat) == i0 + 1) = true := by simp
      simp only [h1, if_true, List.map_cons]
      rw [ih (i0 + 1)]
      rw [if_neg (by omega : ¬ (i0 + 1 + 1 ≤ i0 + 1))]
      rw [if_pos (le_refl (i0 + 1))]
      have h4 : i0 + 1 - 1 - i0 = 0 := by omega
      rw [h4]
      simp
    · have h1 : ((k : Nat) == i0 + 1) = false := by simp [hk]
      simp only [h1, Bool.false_eq_true, if_false]
      rw [ih (i0 + 1)]
      by_cases h2 : i0 + 1 + 1 ≤ k
      · rw [if_pos h2, if_pos (by omega : i0 + 1 ≤ k)]
        have h3 : k - 1 - i0 = (k - 1 - (i0 + 1)) + 1 := by omega
        rw [h3, List.drop_succ_cons]
      · rw [if_neg h2, if_neg (by omega : ¬ (i0 + 1 ≤ k))]

/-- Claim C4 (amended): when the term is `N` followed by digits parsing
to `k` and no opened record's case-insensitive representation matches
the lowercased term, `search_projects` returns exactly the single
record at 1-based position `k` of the list sorted by sortable index
(missing indices receiving the sentinel `zzzz`), or an empty result
when that position does not exist; a record matching the term textually
would additionally be included, the positional filter being OR-ed with
the substring filter. -/
theorem C4_positional_search (st : Storage L) (fs : FS) (d : StorageDir)
    (term : String) (k : Nat) (ps : List L)
    (hterm : Storage.search_index_of term = some k)
    (hopen : st.open_projects_dir fs d = .ok ps)
    (hnom : ∀ p ∈ ps, st.ops.matches_search p (strToLower term) = false) :
    st.search_projects fs d term
      = .ok (if 1 ≤ k then ((sortByLe st.index_le ps).drop (k - 1)).take 1 else []) := by
  unfold Storage.search_projects
  rw [hopen, rres_bind_ok]
  have hfil : ∀ e ∈ (sortByLe st.index_le ps).enum,
      ((match Storage.search_index_of term with
        | some idx => idx == e.1 + 1
        | none => false)
        || st.ops.matches_search e.2 (strToLower term))
        = (k == e.1 + 1) := by
    intro e he
    have hmem : e.2 ∈ ps :=
      (mem_sortByLe st.index_le e.2 ps).mp (snd_mem_enumFrom e _ 0 he)
    rw [hterm, hnom e.2 hmem]
    simp
  rw [List.filter_congr hfil]
  have hclosed := enumFrom_filter_pos k (sortByLe st.index_le ps) 0
  rw [show (sortByLe st.index_le ps).enum
        = List.enumFrom 0 (sortByLe st.index_le ps) from rfl]
  rw [hclosed]
  have : k - 1 - 0 = k - 1 := by omega
  rw [this]

def recC4a : TRec :=
  { name := "apple", idx := some "R001", home := ["w", "apple"], hits := ["apple"] }

def recC4b : TRec :=
  { name := "berry", idx := some "R002", home := ["w", "berry"], hits := ["berry"] }

/-- Record whose case-insensitive representation contains `n2`, so it
textually matches the positional search term `N2`. -/
def recC4c : TRec :=
  { name := "clj-n2o", idx := none, home := ["w", "clj-n2o"], hits := ["clj-n2o", "n2"] }

def stC4 : Storage TRec :=
  { root := [], working := ["w"], archive := ["ar"], templates := ["t"], extras := ["e"],
    ops := tOps [(["w", "apple"], recC4a), (["w", "berry"], recC4b),
                 (["w", "clj-n2o"], recC4c)] }

def fsC4 : FS :=
  { dirs := [[], ["w"], ["ar"], ["w", "apple"], ["w", "berry"], ["w", "clj-n2o"]],
    files := [(["w", "apple", "apple.yml"], "a"), (["w", "berry", "berry.yml"], "b"),
              (["w", "clj-n2o", "clj-n2o.yml"], "c")] }

/-- Counterexample to C4 as stated: with three records sorted into
order apple, berry, clj-n2o, searching `N2` returns the second record
together with the record whose representation contains `n2` — not
exactly the single record at position 2. -/
theorem C4_positional_search_counterexample :
    Storage.search_projects stC4 fsC4 .Working "N2" = .ok [recC4b, recC4c]
    ∧ Storage.search_projects stC4 fsC4 .Working "N2" ≠ .ok [recC4b] := by
  constructor
  · decide
  · decide

def recC4wa : TRec :=
  { name := "apple", idx := some "R001", home := ["w", "apple"], hits := ["apple"] }

def recC4wb : TRec :=
  { name := "berry", idx := some "R002", home := ["w", "berry"], hits := ["berry"] }

def recC4wc : TRec :=
  { name := "cherry", idx := none, home := ["w", "cherry"], hits := ["cherry"] }

def stC4w : Storage TRec :=
  { root := [], working := ["w"], archive := ["ar"], templates := ["t"], extras := ["e"],
    ops := tOps [(["w", "apple"], recC4wa), (["w", "berry"], recC4wb),
                 (["w", "cherry"], recC4wc)] }

def fsC4w : FS :=
  { dirs := [[], ["w"], ["ar"], ["w", "apple"], ["w", "berry"], ["w", "cherry"]],
    files := [(["w", "apple", "apple.yml"], "a"), (["w", "berry", "berry.yml"], "b"),
              (["w", "cherry", "cherry.yml"], "c")] }

/-- Witness for the amended C4 (and the claim's own example): three
working records sort into order apple, berry, cherry (the index-less
cherry last); none textually matches `n2`, and searching `N2` returns
exactly the second. -/
theorem C4_positional_search_witness :
    Storage.search_projects stC4w fsC4w .Working "N2" = .ok [recC4wb] := by
  have h := C4_positional_search stC4w fsC4w .Working "N2" 2
    [recC4wa, recC4wb, recC4wc] (by decide) (by decide) (by decide)
  rw [h]
  decide

end ClaimC4

section ClaimC9

variable {L : Type}

lemma createDir_err (fs : FS) (p : FPath) (e : StorageError)
    (h : fs.createDir p = .error e) : e = .IoError := by
  unfold FS.createDir at h
  split at h
  · cases h
  · injection h with h1
    exact h1.symm

lemma rename_err (fs : FS) (src dst : FPath) (e : StorageError)
    (h : fs.rename src dst = .error e) : e = .IoError := by
  unfold FS.rename at h
  split at h
  · cases h
  · injection h with h1
    exact h1.symm

lemma create_archive_err (st : Storage L) (fs : FS) (y : Int) (e : StorageError)
    (h : st.create_archive fs y = .err e) : e = .IoError := by
  unfold Storage.create_archive at h
  split at h
  · cases h
  · split at h
    · cases hcd : fs.createDir (st.archive ++ [toString y]) with
      | error e2 =>
        rw [hcd, liftE_error, rres_bind_err] at h
        injection h with h1
        rw [← h1]
        exact createDir_err fs _ e2 hcd
      | ok fsx => rw [hcd, liftE_ok, rres_bind_ok] at h; cases h
    · cases h

lemma archive_project_err_io (st : Storage L) (fs : FS) (project : L) (year : Int)
    (e : StorageError) (h : st.archive_project fs project year = .err e) : e = .IoError := by
  unfold Storage.archive_project at h
  cases hca : st.create_archive fs year with
  | panic => rw [hca, rres_bind_panic] at h; cases h
  | err e2 =>
    rw [hca, rres_bind_err] at h
    injection h with h1
    rw [← h1]
    exact create_archive_err st fs year e2 hca
  | ok r =>
    rw [hca, rres_bind_ok] at h
    cases hrn : r.1.rename (st.ops.dir project)
        (r.2 ++ [match st.ops.prefix_ project with
                 | some p => p ++ "_" ++ st.ops.ident project
                 | none => st.ops.ident project]) with
    | error e2 =>
      rw [hrn, liftE_error, rres_bind_err] at h
      injection h with h1
      rw [← h1]
      exact rename_err r.1 _ _ e2 hrn
    | ok fsx => rw [hrn, liftE_ok, rres_bind_ok] at h; cases h

lemma archive_loop_skip_all (st : Storage L) (logInfo : Bool) (my : Option Int) :
    ∀ (l : List L) (fs : FS) (m : List FPath),
      (∀ q ∈ l, st.ops.is_ready_for_archive q = false) →
      st.archive_loop logInfo my false l fs m = .ok (fs, m) := by
  intro l
  induction l with
  | nil => intro fs m _; rfl
  | cons q l2 ih =>
    intro fs m h
    rw [Storage.archive_loop, h q (by simp)]
    simp only [Bool.or_false, Bool.false_eq_true, if_false]
    exact ih fs m (fun u hu => h u (by simp [hu]))

lemma archive_loop_cons_skip (st : Storage L) (logInfo : Bool) (my : Option Int)
    (force : Bool) (q : L) (l2 : List L) (fs : FS) (m : List FPath)
    (hready : (st.ops.is_ready_for_archive q || force) = false) :
    st.archive_loop logInfo my force (q :: l2) fs m
      = st.archive_loop logInfo my force l2 fs m := by
  rw [Storage.archive_loop]
  simp only [hready, Bool.false_eq_true, if_false]

lemma archive_loop_cons_noyear (st : Storage L) (logInfo : Bool) (my : Option Int)
    (force : Bool) (q : L) (l2 : List L) (fs : FS) (m : List FPath)
    (hready : (st.ops.is_ready_for_archive q || force) = true)
    (ho : (my.orElse fun _ => st.ops.year q) = none) :
    st.archive_loop logInfo my force (q :: l2) fs m = .panic := by
  rw [Storage.archive_loop]
  simp only [hready, if_true]
  rw [ho]

lemma archive_loop_cons_ready (st : Storage L) (logInfo : Bool) (my : Option Int)
    (force : Bool) (q : L) (l2 : List L) (fs : FS) (m : List FPath) (year : Int)
    (hready : (st.ops.is_ready_for_archive q || force) = true)
    (ho : (my.orElse fun _ => st.ops.year q) = some year) :
    st.archive_loop logInfo my force (q :: l2) fs m
      = if logInfo && (st.ops.year q).isNone then .panic
        else (st.archive_project fs q year).bind
          (fun r => st.archive_loop logInfo my force l2 r.1 (m ++ [st.ops.dir q] ++ r.2)) := by
  rw [Storage.archive_loop]
  simp only [hready, if_true]
  rw [ho]

lemma archive_loop_ne_pdne (st : Storage L) (logInfo : Bool) (my : Option Int) (force : Bool) :
    ∀ (l : List L) (fs : FS) (m : List FPath),
      st.archive_loop logInfo my force l fs m ≠ .err .ProjectDoesNotExist := by
  intro l
  induction l with
  | nil => intro fs m; simp [Storage.archive_loop]
  | cons q l2 ih =>
    intro fs m
    by_cases hready : (st.ops.is_ready_for_archive q || force) = true
    · cases ho : my.orElse (fun _ => st.ops.year q) with
      | none =>
        rw [archive_loop_cons_noyear st logInfo my force q l2 fs m hready ho]
        simp
      | some year =>
        rw [archive_loop_cons_ready st logInfo my force q l2 fs m year hready ho]
        split
        · simp
        · cases hap : st.archive_project fs q year with
          | panic => rw [rres_bind_panic]; simp
          | err e =>
            rw [rres_bind_err]
            have he := archive_project_err_io st fs q year e hap
            subst he
            intro hc
            injection hc with h1
            cases h1
          | ok r =>
            rw [rres_bind_ok]
            exact ih r.1 (m ++ [st.ops.dir q] ++ r.2)
    · rw [archive_loop_cons_skip st logInfo my force q l2 fs m
        (by simpa using hready)]
      exact ih fs m

lemma archive_loop_one_ready (st : Storage L) (logInfo : Bool) (my : Option Int)
    (r : L) (psB : List L) (ry : Int) (fs fs1 : FS) (moved : List FPath)
    (hB : ∀ q ∈ psB, st.ops.is_ready_for_archive q = false)
    (hr : st.ops.is_ready_for_archive r = true)
    (hy : st.ops.year r = some ry)
    (hap : st.archive_project fs r (my.getD ry) = .ok (fs1, moved)) :
    ∀ (psA : List L) (m : List FPath),
      (∀ q ∈ psA, st.ops.is_ready_for_archive q = false) →
      st.archive_loop logInfo my false (psA ++ r :: psB) fs m
        = .ok (fs1, m ++ [st.ops.dir r] ++ moved) := by
  intro psA
  induction psA with
  | nil =>
    intro m _
    rw [List.nil_append, Storage.archive_loop, hr]
    simp only [Bool.true_or, if_true]
    have horele : (my.orElse fun _ => st.ops.year r) = some (my.getD ry) := by
      cases my <;> simp [Option.orElse, hy, Option.getD]
    rw [horele, hy]
    simp only [Option.isNone_some, Bool.and_false, Bool.false_eq_true, if_false]
    rw [hap, rres_bind_ok]
    exact archive_loop_skip_all st logInfo my psB fs1 (m ++ [st.ops.dir r] ++ moved) hB
  | cons q psA2 ih =>
    intro m h
    rw [List.cons_append, Storage.archive_loop, h q (by simp)]
    simp only [Bool.or_false, Bool.false_eq_true, if_false]
    exact ih m (fun u hu => h u (by simp [hu]))

/-- Claim C9: with the confirmation evaluating to `false`,
`archive_projects_if` fails with `ProjectDoesNotExist` exactly when the
working-directory search yields no matches; every matched record not
reporting itself ready is skipped (moving nothing for it), and when the
remaining matched record is ready and its archival succeeds the whole
operation still returns `Ok` with the moved paths. -/
theorem C9_archive_if_skip_and_not_found (st : Storage L) (fs : FS) (logInfo : Bool)
    (terms : List String) (my : Option Int) (ps : List L)
    (hsearch : st.search_projects_any fs .Working terms = .ok ps) :
    (ps = [] → st.archive_projects_if fs logInfo terms my false = .err .ProjectDoesNotExist)
    ∧ (st.archive_projects_if fs logInfo terms my false = .err .ProjectDoesNotExist → ps = [])
    ∧ (∀ (psA : List L) (r : L) (psB : List L) (ry : Int) (fs1 : FS) (moved : List FPath),
        ps = psA ++ r :: psB →
        (∀ q ∈ psA, st.ops.is_ready_for_archive q = false) →
        (∀ q ∈ psB, st.ops.is_ready_for_archive q = false) →
        st.ops.is_ready_for_archive r = true →
        st.ops.year r = some ry →
        st.archive_project fs r (my.getD ry) = .ok (fs1, moved) →
        st.archive_projects_if fs logInfo terms my false
          = .ok (fs1, [st.ops.dir r] ++ moved)) := by
  refine ⟨?_, ?_, ?_⟩
  · intro hps
    subst hps
    unfold Storage.archive_projects_if
    rw [hsearch, rres_bind_ok]
    rfl
  · intro hres
    by_cases hps : ps = []
    · exact hps
    · exfalso
      unfold Storage.archive_projects_if at hres
      rw [hsearch, rres_bind_ok] at hres
      have hne : ps.isEmpty = false := by
        cases ps with
        | nil => exact absurd rfl hps
        | cons a l2 => rfl
      rw [hne] at hres
      simp only [Bool.false_eq_true, if_false] at hres
      exact archive_loop_ne_pdne st logInfo my false ps fs [] hres
  · intro psA r psB ry fs1 moved hps hA hB hr hy hap
    subst hps
    unfold Storage.archive_projects_if
    rw [hsearch, rres_bind_ok]
    have hne : (psA ++ r :: psB).isEmpty = false := by
      cases psA <;> rfl
    rw [hne]
    simp only [Bool.false_eq_true, if_false]
    have h := archive_loop_one_ready st logInfo my r psB ry fs fs1 moved hB hr hy hap psA [] hA
    rw [h]
    simp

def recC9skip : TRec :=
  { name := "skipme", idx := some "R001", home := ["w", "skipme"], hits := ["x"] }

def recC9go : TRec :=
  { name := "gopro", idx := some "R002", home := ["w", "gopro"], hits := ["x"],
    yr := some 2024, ready := true }

def stC9 : Storage TRec :=
  { root := [], working := ["w"], archive := ["ar"], templates := ["t"], extras := ["e"],
    ops := tOps [(["w", "skipme"], recC9skip), (["w", "gopro"], recC9go)] }

def fsC9 : FS :=
  { dirs := [[], ["w"], ["ar"], ["w", "skipme"], ["w", "gopro"]],
    files := [(["w", "skipme", "skipme.yml"], "s"), (["w", "gopro", "gopro.yml"], "g")] }

/-- Filesystem after the C9 witness run: the ready record was archived
into `archive/2024`, the skipped one stayed in the working set. -/
def fsC9arch : FS :=
  { dirs := [[], ["w"], ["ar"], ["w", "skipme"], ["ar", "2024", "gopro"], ["ar", "2024"]],
    files := [(["w", "skipme", "skipme.yml"], "s"),
              (["ar", "2024", "gopro", "gopro.yml"], "g")] }

/-- Witness for C9: of two matched records, the non-ready one is
skipped and the ready one is archived; the run returns `Ok` with the
moved paths of the archived record only. -/
theorem C9_archive_if_skip_and_not_found_witness :
    Storage.archive_projects_if stC9 fsC9 false ["x"] none false
      = .ok (fsC9arch, [["w", "gopro"], ["w", "gopro"], ["ar", "2024", "gopro"]]) := by
  have h := (C9_archive_if_skip_and_not_found stC9 fsC9 false ["x"] none
      [recC9skip, recC9go] (by decide)).2.2
    [recC9skip] recC9go [] 2024 fsC9arch [["w", "gopro"], ["ar", "2024", "gopro"]]
    (by decide) (by decide) (by decide) (by decide) (by decide) (by decide)
  simpa using h

end ClaimC9

section ClaimC8

/-- A matched, archive-ready working record that does not declare a
year of its own. -/
def recC8 : TRec :=
  { name := "lost", idx := some "R001", home := ["w", "lost"], hits := ["x"], ready := true }

def stC8 : Storage TRec :=
  { root := [], working := ["w"], archive := ["ar"], templates := ["t"], extras := ["e"],
    ops := tOps [(["w", "lost"], recC8)] }

def fsC8 : FS :=
  { dirs := [[], ["w"], ["ar"], ["w", "lost"]],
    files := [(["w", "lost", "lost.yml"], "l")] }

/-- Claim C8 is contradicted by the code: with an explicit year 2024
supplied and a matched ready record whose own year is missing, the
archival log line evaluates `project.year().unwrap()` (when info-level
logging is enabled) and the whole batch panics instead of archiving the
record into 2024. -/
theorem C8_log_line_year_unwrap_panics :
    Storage.archive_projects_if stC8 fsC8 true ["x"] (some 2024) false = .panic := by
  decide

end ClaimC8

section ClaimC1

variable {L : Type}

lemma exbind_ok {α β : Type} (a : α) (f : α → Except StorageError β) :
    (Except.ok a : Except StorageError α).bind f = f a := rfl

lemma exbind_error {α β : Type} (e : StorageError) (f : α → Except StorageError β) :
    (Except.error e : Except StorageError α).bind f = .error e := rfl

lemma contains_of_mem (l : List FPath) (a : FPath) (h : a ∈ l) : l.contains a = true := by
  simpa using h

lemma wf_parent (fs : FS) (hwf : fs.wf = true) (q : FPath)
    (hq : q ∈ fs.dirs ∨ q ∈ fs.files.map Prod.fst) (hne : q ≠ []) :
    q.dropLast ∈ fs.dirs := by
  have h := (List.all_eq_true.mp hwf) q (List.mem_append.mpr hq)
  rw [Bool.or_eq_true] at h
  rcases h with h | h
  · exact absurd (List.isEmpty_iff.mp h) hne
  · simpa using h

lemma wf_ancestor_dir (fs : FS) (hwf : fs.wf = true) :
    ∀ (n : Nat) (q : FPath), q.length ≤ n →
      (q ∈ fs.dirs ∨ q ∈ fs.files.map Prod.fst) →
      ∀ pre, pre <+: q → pre ≠ q → pre ∈ fs.dirs := by
  intro n
  induction n with
  | zero =>
    intro q hlen hq pre hpre hne
    have hq0 : q = [] := List.length_eq_zero.mp (Nat.le_zero.mp hlen)
    subst hq0
    exact absurd (List.prefix_nil.mp hpre) hne
  | succ n ih =>
    intro q hlen hq pre hpre hne
    by_cases hqe : q = []
    · subst hqe
      exact absurd (List.prefix_nil.mp hpre) hne
    · have hparent : q.dropLast ∈ fs.dirs := wf_parent fs hwf q hq hqe
      by_cases hpd : pre = q.dropLast
      · rw [hpd]; exact hparent
      · have hlt : pre.length < q.length := by
          have hle := hpre.length_le
          rcases Nat.lt_or_ge pre.length q.length with h | h
          · exact h
          · exact absurd (hpre.eq_of_length (le_antisymm hle h)) hne
        have hql : 1 ≤ q.length := by
          cases q with
          | nil => exact absurd rfl hqe
          | cons a l2 => simp
        have hpre2 : pre <+: q.dropLast := by
          rw [List.dropLast_eq_take, List.prefix_take_iff]
          exact ⟨hpre, by omega⟩
        have hlen2 : q.dropLast.length ≤ n := by
          rw [List.length_dropLast]
          omega
        exact ih q.dropLast hlen2 (Or.inl hparent) pre hpre2 hpd

lemma entry_pathExists (fs : FS) (q : FPath)
    (hq : q ∈ fs.dirs ∨ q ∈ fs.files.map Prod.fst) : fs.pathExists q = true := by
  unfold FS.pathExists FS.isDir FS.isFile
  rw [Bool.or_eq_true]
  rcases hq with h | h
  · left; simpa using h
  · right
    rcases List.mem_map.mp h with ⟨e, he, hfst⟩
    rw [List.any_eq_true]
    exact ⟨e, he, by simp [hfst]⟩

lemma no_descendant_of_not_exists (fs : FS) (hwf : fs.wf = true) (d q : FPath)
    (hnd : fs.pathExists d = false)
    (hq : q ∈ fs.dirs ∨ q ∈ fs.files.map Prod.fst) : ¬ (d <+: q) := by
  intro hpre
  by_cases he : d = q
  · subst he
    rw [entry_pathExists fs d hq] at hnd
    cases hnd
  · have hd : d ∈ fs.dirs := wf_ancestor_dir fs hwf q.length q (le_refl _) hq d hpre he
    rw [entry_pathExists fs d (Or.inl hd)] at hnd
    cases hnd

lemma rebase_outside_src (src dst q : FPath) (h : ¬ (src <+: q)) :
    FS.rebase src dst q = q := by
  unfold FS.rebase
  rw [if_neg (fun hc => h (List.isPrefixOf_iff_prefix.mp hc))]

lemma rebase_inside_src (src dst q : FPath) (h : src <+: q) :
    FS.rebase src dst q = dst ++ q.drop src.length := by
  unfold FS.rebase
  rw [if_pos (List.isPrefixOf_iff_prefix.mpr h)]

lemma rebase_roundtrip (odir newdir q : FPath) (hq : ¬ (newdir <+: q)) :
    FS.rebase newdir odir (FS.rebase odir newdir q) = q := by
  by_cases hp : odir <+: q
  · rw [rebase_inside_src _ _ _ hp]
    obtain ⟨t, ht⟩ := hp
    rw [← ht]
    rw [show (odir ++ t).drop odir.length = t by simp]
    rw [rebase_inside_src newdir odir (newdir ++ t) ⟨t, rfl⟩]
    rw [show (newdir ++ t).drop newdir.length = t by simp]
  · rw [rebase_outside_src _ _ _ hp, rebase_outside_src _ _ _ hq]

lemma wf_createDir (fs : FS) (p : FPath) (fs1 : FS) (hwf : fs.wf = true)
    (h : fs.createDir p = .ok fs1) : fs1.wf = true := by
  obtain ⟨hd, hf, hex, hpne, hpar⟩ := createDir_ok fs p fs1 h
  rw [FS.wf, List.all_eq_true]
  intro q hq
  rw [Bool.or_eq_true]
  by_cases hqe : q.isEmpty = true
  · left; exact hqe
  right
  have hqne : q ≠ [] := by
    intro hc
    subst hc
    simp at hqe
  rw [hd]
  rw [hd, hf] at hq
  have hq2 : q ∈ fs.dirs ∨ q ∈ fs.files.map Prod.fst ∨ q = p := by
    rcases List.mem_append.mp hq with h1 | h2
    · rcases List.mem_append.mp h1 with ha | hb
      · exact Or.inl ha
      · right; right; simpa using hb
    · exact Or.inr (Or.inl h2)
  rcases hq2 with h1 | h1 | h1
  · exact contains_of_mem _ _ (List.mem_append_left _ (wf_parent fs hwf q (Or.inl h1) hqne))
  · exact contains_of_mem _ _ (List.mem_append_left _ (wf_parent fs hwf q (Or.inr h1) hqne))
  · subst h1
    have : q.dropLast ∈ fs.dirs := by
      unfold FS.isDir at hpar
      simpa using hpar
    exact contains_of_mem _ _ (List.mem_append_left _ this)

/-- Success shape of `unarchive_project_dir`: the derived name, the
target under `working`, its prior absence, and the rename performed. -/
lemma unarchive_ok (st : Storage L) (fs : FS) (p : FPath) (fs2 : FS) (tgt : FPath)
    (h : st.unarchive_project_dir fs p = .ok (fs2, tgt)) :
    ∃ nm, st.get_project_name fs p = .ok nm ∧ tgt = st.working ++ [nm] ∧
      fs.pathExists (st.working ++ [nm]) = false ∧
      fs.rename p (st.working ++ [nm]) = .ok fs2 := by
  unfold Storage.unarchive_project_dir at h
  cases hn : st.get_project_name fs p with
  | error e => rw [hn, exbind_error] at h; cases h
  | ok nm =>
    rw [hn, exbind_ok] at h
    by_cases hocc : fs.pathExists (st.working ++ [nm]) = true
    · rw [if_pos hocc] at h
      cases h
    · rw [if_neg hocc] at h
      by_cases hguard : (FPath.startsWith p st.archive && !(p == st.archive)
          && Storage.parent_is_num p) = true
      · rw [if_pos hguard] at h
        cases hrn : fs.rename p (st.working ++ [nm]) with
        | error e => rw [hrn, exbind_error] at h; cases h
        | ok fsr =>
          rw [hrn, exbind_ok] at h
          injection h with h1
          injection h1 with h2 h3
          exact ⟨nm, rfl, h3.symm, by simpa using hocc, by rw [← h2]; exact hrn⟩
      · rw [if_neg hguard] at h
        cases h

/-- Claim C1: for a record residing at `working/<n>` (with `n` the stem
of its record file, as recomputed by the unarchive step), a successful
`archive_project` followed by a successful `unarchive_project_dir` of
the archived directory restores the record directory to its original
working path, and the two renames leave the file entries — paths and
byte contents — exactly as they were. -/
theorem C1_archive_unarchive_roundtrip (st : Storage L) (fs : FS) (rec : L) (y : Int)
    (n : String) (fs1 : FS) (newdir : FPath) (fs2 : FS) (tgt : FPath)
    (hwf : fs.wf = true)
    (hdir : st.ops.dir rec = st.working ++ [n])
    (harch : st.archive_project fs rec y = .ok (fs1, [st.ops.dir rec, newdir]))
    (hname : st.get_project_name fs1 newdir = .ok n)
    (hun : st.unarchive_project_dir fs1 newdir = .ok (fs2, tgt)) :
    tgt = st.ops.dir rec ∧ fs2.files = fs.files ∧ ∀ q ∈ fs.dirs, q ∈ fs2.dirs := by
  obtain ⟨fsA, hca, hrn1, hmv⟩ := archive_project_ok st fs rec y fs1 _ harch
  simp only [List.cons.injEq, and_true] at hmv
  obtain ⟨-, hnd⟩ := hmv
  rw [← hnd] at hrn1
  obtain ⟨-, hcaor⟩ := create_archive_ok st fs y fsA _ hca
  have hAfiles : fsA.files = fs.files := by
    rcases hcaor with he | hcd
    · rw [he]
    · exact (createDir_ok _ _ _ hcd).2.1
  have hAdirs : ∀ q ∈ fs.dirs, q ∈ fsA.dirs :=
    fun q hq => mem_dirs_create_archive st fs fsA y _ q hca hq
  have hAwf : fsA.wf = true := by
    rcases hcaor with he | hcd
    · rw [he]; exact hwf
    · exact wf_createDir fs _ fsA hwf hcd
  obtain ⟨hsrc, hndst, hdne, hdpar, h1d, h1f⟩ := rename_ok fsA _ _ fs1 hrn1
  obtain ⟨nm, hnm, htgt, hfree, hrn2⟩ := unarchive_ok st fs1 _ fs2 tgt hun
  have hnmn : nm = n := by
    rw [hnm] at hname
    injection hname
  subst hnmn
  have htgt2 : tgt = st.ops.dir rec := by rw [htgt, ← hdir]
  obtain ⟨-, -, -, -, h2d, h2f⟩ := rename_ok fs1 _ _ fs2 hrn2
  have hwn : st.working ++ [nm] = st.ops.dir rec := hdir.symm
  rw [hwn] at h2d h2f
  have hround : ∀ q, (q ∈ fsA.dirs ∨ q ∈ fsA.files.map Prod.fst) →
      FS.rebase newdir (st.ops.dir rec) (FS.rebase (st.ops.dir rec) newdir q) = q := by
    intro q hq
    exact rebase_roundtrip (st.ops.dir rec) newdir q
      (no_descendant_of_not_exists fsA hAwf newdir q hndst hq)
  refine ⟨htgt2, ?_, ?_⟩
  · rw [h2f, h1f, List.map_map]
    have hpt : ∀ e ∈ fsA.files,
        ((fun e => (FS.rebase newdir (st.ops.dir rec) e.1, e.2))
          ∘ (fun e => (FS.rebase (st.ops.dir rec) newdir e.1, e.2))) e = e := by
      intro e he
      obtain ⟨q, c⟩ := e
      simp only [Function.comp]
      rw [hround q (Or.inr (List.mem_map.mpr ⟨(q, c), he, rfl⟩))]
    rw [List.map_congr_left hpt]
    rw [show List.map (fun a => a) fsA.files = fsA.files from List.map_id' fsA.files]
    exact hAfiles
  · intro q hq
    have hqA : q ∈ fsA.dirs := hAdirs q hq
    rw [h2d, h1d, List.map_map]
    exact List.mem_map.mpr ⟨q, hqA, hround q (Or.inl hqA)⟩

end ClaimC1

section ClaimC1Witness

/-- The record of the C1 witness roundtrip: prefix `R1`, file stem
`bp`, residing at `working/bp`. -/
def recC1 : TRec := { name := "bp", pfx := some "R1", home := ["w", "bp"] }

def stC1 : Storage TRec :=
  { root := [], working := ["w"], archive := ["a"], templates := ["t"], extras := ["e"],
    ops := tOps [(["w", "bp"], recC1)] }

def fsC1 : FS :=
  { dirs := [[], ["w"], ["a"], ["w", "bp"]],
    files := [(["w", "bp", "bp.yml"], "content")] }

/-- The C1 witness filesystem after archiving into 2024. -/
def fsC1a : FS :=
  { dirs := [[], ["w"], ["a"], ["a", "2024", "R1_bp"], ["a", "2024"]],
    files := [(["a", "2024", "R1_bp", "bp.yml"], "content")] }

/-- The C1 witness filesystem after unarchiving again: the record file
is back at its original path with its original content. -/
def fsC1b : FS :=
  { dirs := [[], ["w"], ["a"], ["w", "bp"], ["a", "2024"]],
    files := [(["w", "bp", "bp.yml"], "content")] }

/-- Witness for C1: a concrete archive/unarchive roundtrip whose
unarchive lands back on `working/bp` and whose file entries afterwards
equal the original ones byte for byte. -/
theorem C1_archive_unarchive_roundtrip_witness :
    Storage.unarchive_project_dir stC1 fsC1a ["a", "2024", "R1_bp"]
      = .ok (fsC1b, ["w", "bp"])
    ∧ fsC1b.files = fsC1.files := by
  refine ⟨by decide, ?_⟩
  exact (C1_archive_unarchive_roundtrip stC1 fsC1 recC1 2024 "bp" fsC1a
    ["a", "2024", "R1_bp"] fsC1b ["w", "bp"] (by decide) (by decide) (by decide)
    (by decide) (by decide)).2.1

end ClaimC1Witness

end Asciii
